import Mathlib

/-!
Verification of the synthetic-ledger generator (beancount `scripts/example.py`).

The development shallowly embeds the generator's numeric core:

* `Dec` models Python `decimal.Decimal` values as an integer mantissa times a
  power of ten.  Arithmetic is exact, followed by `Dec.limitPrec p`, which is
  Python's context rounding to `p` significant digits with ROUND_HALF_EVEN;
  `Dec.roundExp` is quantization to a fixed exponent (the `{:.2f}` format).
* Dates are day numbers (days since 1970-01-01); `yearOfDay` and
  `daysFromCivil` are the standard civil-calendar conversions, so the
  bi-weekly Thursday pay schedule of the source can be generated exactly.
-/

structure Dec where
  m : Int
  e : Int
deriving DecidableEq, Repr

def numDigitsAux : Nat → Nat → Nat
  | 0, _ => 0
  | fuel+1, n => if n < 10 then 1 else numDigitsAux fuel (n / 10) + 1

/-- Number of decimal digits of a natural number (1 for 0), with enough fuel
for every mantissa this development manipulates. -/
def numDigits (n : Nat) : Nat := numDigitsAux 64 n

/-- Rounding division `a / b` (for `b > 0`) to the nearest integer, ties to
even: the ROUND_HALF_EVEN mode of Python's default decimal context. -/
def rdivHE (a b : Int) : Int :=
  let q := Int.fdiv a b
  let r := a - q * b
  if 2 * r < b then q
  else if b < 2 * r then q + 1
  else if q % 2 = 0 then q else q + 1

/-- Quantize to exponent `ε` (value rounded half-even to a multiple of
`10^ε`); with `ε = -2` this is the `'{:.2f}'.format` applied to every
amount the generator embeds in a transaction. -/
def Dec.roundExp (x : Dec) (ε : Int) : Dec :=
  if ε ≤ x.e then ⟨x.m * (10:Int) ^ (x.e - ε).toNat, ε⟩
  else ⟨rdivHE x.m ((10:Int) ^ (ε - x.e).toNat), ε⟩

/-- Exponent of the leading digit (`floor (log10 |x|)` for `x ≠ 0`). -/
def Dec.decExp (x : Dec) : Int := (numDigits x.m.natAbs : Int) - 1 + x.e

/-- Python decimal context rounding: a result with at most `p` significant
digits is returned unchanged, otherwise it is rounded (half-even) to `p`
significant digits. -/
def Dec.limitPrec (p : Nat) (x : Dec) : Dec :=
  if numDigits x.m.natAbs ≤ p then x else x.roundExp (x.decExp - (p : Int) + 1)

def Dec.neg (x : Dec) : Dec := ⟨-x.m, x.e⟩

/-- Exact decimal addition (operands aligned to the smaller exponent). -/
def Dec.addExact (a b : Dec) : Dec :=
  if a.e ≤ b.e then ⟨a.m + b.m * (10:Int) ^ (b.e - a.e).toNat, a.e⟩
  else ⟨a.m * (10:Int) ^ (a.e - b.e).toNat + b.m, b.e⟩

def Dec.subExact (a b : Dec) : Dec := a.addExact b.neg

def Dec.mulExact (a b : Dec) : Dec := ⟨a.m * b.m, a.e + b.e⟩

/-- Value comparison `a < b` (exact, as Python decimal comparison is). -/
def Dec.blt (a b : Dec) : Bool :=
  if a.e ≤ b.e then decide (a.m < b.m * (10:Int) ^ (b.e - a.e).toNat)
  else decide (a.m * (10:Int) ^ (a.e - b.e).toNat < b.m)

/-- Python `min(a, b)`: returns `b` exactly when `b < a`. -/
def Dec.min (a b : Dec) : Dec := if Dec.blt b a then b else a

/-- Python `math.ceil` of a decimal value. -/
def Dec.ceil (x : Dec) : Int :=
  if 0 ≤ x.e then x.m * (10:Int) ^ x.e.toNat
  else -(Int.fdiv (-x.m) ((10:Int) ^ (-x.e).toNat))

/-- Addition in a decimal context of `p` significant digits. -/
def Dec.addP (p : Nat) (a b : Dec) : Dec := (a.addExact b).limitPrec p

/-- Subtraction in a decimal context of `p` significant digits. -/
def Dec.subP (p : Nat) (a b : Dec) : Dec := (a.subExact b).limitPrec p

/-- Multiplication in a decimal context of `p` significant digits. -/
def Dec.mulP (p : Nat) (a b : Dec) : Dec := (a.mulExact b).limitPrec p

/-- Division in a decimal context of `p` significant digits (faithful for
positive operands, the only divisions the source performs): the exact
quotient rounded half-even to `p` significant digits. -/
def Dec.divP (p : Nat) (a b : Dec) : Dec :=
  let e0 : Int := (numDigits a.m.natAbs : Int) - (numDigits b.m.natAbs : Int) + a.e - b.e
  -- whether 10^e0 ≤ a/b, i.e. b.m · 10^(e0 + b.e - a.e) ≤ a.m
  let k : Int := e0 + b.e - a.e
  let lower : Bool :=
    if 0 ≤ k then decide (b.m * (10:Int) ^ k.toNat ≤ a.m)
    else decide (b.m ≤ a.m * (10:Int) ^ (-k).toNat)
  let eq : Int := if lower then e0 else e0 - 1
  let ε : Int := eq - (p : Int) + 1
  let s : Int := a.e - ε - b.e
  if 0 ≤ s then ⟨rdivHE (a.m * (10:Int) ^ s.toNat) b.m, ε⟩
  else ⟨rdivHE a.m (b.m * (10:Int) ^ (-s).toNat), ε⟩

/-- Exact sum of a list of decimals (mantissa zero iff the sum of the
values is zero). -/
def sumDec (l : List Dec) : Dec := l.foldl Dec.addExact ⟨0, 0⟩

/-- The `'{:.2f}'` formatting every amount passes through before being
embedded in the generated text. -/
def fmt2 (x : Dec) : Dec := x.roundExp (-2)

/-! ## Civil calendar (days since 1970-01-01) -/

def daysFromCivil (y m d : Int) : Int :=
  let y' := if m ≤ 2 then y - 1 else y
  let era := Int.fdiv y' 400
  let yoe := (y' - era * 400).toNat
  let mp := (if 2 < m then m - 3 else m + 9).toNat
  let doy := (153 * mp + 2) / 5 + d.toNat - 1
  let doe := yoe * 365 + yoe / 4 - yoe / 100 + doy
  era * 146097 + (doe : Int) - 719468

def yearOfDay (z : Int) : Int :=
  let z' := z + 719468
  let era := Int.fdiv z' 146097
  let doe := (z' - era * 146097).toNat
  let yoe := (doe - doe / 1460 + doe / 36524 - doe / 146096) / 365
  let y : Int := (yoe : Int) + era * 400
  let doy := doe - (365 * yoe + yoe / 4 - yoe / 100)
  let mp := (5 * doy + 2) / 153
  if mp < 10 then y else y + 1

/-! ## Payroll constants and per-pay-period amounts

Embedding of `generate_employment_income` (`scripts/example.py`).  All
module constants are those of the source: annual salary 120000, biweekly
gross `annual_salary / 26` at the default context precision 28, statutory
fractions of gross, fixed premium amounts, vacation accrual at precision 4,
and the net deposit computed at the reduced precision 6. -/

def annual_salary : Dec := ⟨120000, 0⟩

def biweekly_pay : Dec := Dec.divP 28 annual_salary ⟨26, 0⟩

def gross : Dec := biweekly_pay

def medicare : Dec := Dec.mulP 28 gross ⟨231, -4⟩

def federal : Dec := Dec.mulP 28 gross ⟨2303, -4⟩

def state : Dec := Dec.mulP 28 gross ⟨791, -4⟩

def city : Dec := Dec.mulP 28 gross ⟨379, -4⟩

def sdi : Dec := ⟨112, -2⟩

def lifeinsurance : Dec := ⟨2432, -2⟩

def dental : Dec := ⟨290, -2⟩

def medical : Dec := ⟨2738, -2⟩

def vision : Dec := ⟨4230, -2⟩

/-- `fixed = medicare + federal + state + city + sdi + dental + medical +
vision`, summed left to right in the precision-28 context. -/
def fixed : Dec :=
  Dec.addP 28 (Dec.addP 28 (Dec.addP 28 (Dec.addP 28 (Dec.addP 28
    (Dec.addP 28 (Dec.addP 28 medicare federal) state) city) sdi) dental) medical) vision

/-- Vacation hours per pay: `(annual_vacation_days * 8) / 26` in a local
context of precision 4. -/
def vacation_hrs : Dec := Dec.divP 4 (Dec.mulP 4 ⟨15, 0⟩ ⟨8, 0⟩) ⟨26, 0⟩

/-- `math.ceil((gross * D('0.25')) / 100) * 100`: the uncapped retirement
contribution, a Python int. -/
def retirement_uncapped : Int :=
  100 * Dec.ceil (Dec.divP 28 (Dec.mulP 28 gross ⟨25, -2⟩) ⟨100, 0⟩)

def retirement_uncappedD : Dec := ⟨retirement_uncapped, 0⟩

/-- `socsec_uncapped = gross * D('0.0610')`. -/
def socsec_uncapped : Dec := Dec.mulP 28 gross ⟨610, -4⟩

/-- The `retirement_limits` dict of the source, literally: keys are years
(plus the `None` key carrying the default limit 18500). -/
def retirement_limits : List (Option Int × Dec) :=
  [(some 2000, ⟨10500, 0⟩), (some 2001, ⟨10500, 0⟩), (some 2002, ⟨11000, 0⟩),
   (some 2003, ⟨12000, 0⟩), (some 2004, ⟨13000, 0⟩), (some 2005, ⟨14000, 0⟩),
   (some 2006, ⟨15000, 0⟩), (some 2007, ⟨15500, 0⟩), (some 2008, ⟨15500, 0⟩),
   (some 2009, ⟨16500, 0⟩), (some 2010, ⟨16500, 0⟩), (some 2011, ⟨16500, 0⟩),
   (some 2012, ⟨17000, 0⟩), (some 2013, ⟨17500, 0⟩), (some 2014, ⟨17500, 0⟩),
   (some 2015, ⟨18000, 0⟩), (some 2016, ⟨18000, 0⟩), (none, ⟨18500, 0⟩)]

/-- `retirement_limits[year]`: plain dict indexing; `none` models the
`KeyError` raised for a year that is not a key of the dict.  (The dict's
`None`-keyed default entry can never be returned by this lookup, since the
subscript is always `date.year`, an int.) -/
def retirementLimitsGet (y : Int) : Option Dec :=
  (retirement_limits.find? (fun kv => kv.1 == some y)).map (fun kv => kv.2)

/-! ## The bi-weekly pay schedule -/

def date_begin : Int := daysFromCivil 2012 1 1

def date_end : Int := daysFromCivil 2016 1 1

/-- First Thursday on or after `date_begin` (day number 0, 1970-01-01, was a
Thursday): the first occurrence of `rrule(WEEKLY, byweekday=TH)`. -/
def firstPayDay : Int := date_begin + Int.emod (-date_begin) 7

/-- The pay dates: every other weekly Thursday (`skipiter(..., 2)`), i.e.
every 14 days from `firstPayDay`, up to and including `date_end`. -/
def payDates : List Int :=
  (List.range 120).filterMap (fun k =>
    let d := firstPayDay + 14 * (k : Int)
    if d ≤ date_end then some d else none)

/-! ## The payroll engine -/

structure PayState where
  prevYear : Option Int
  capRet : Dec
  capSoc : Dec
deriving DecidableEq, Repr

/-- One emitted payroll period: the pay date, its calendar year, whether the
yearly capacities were reset at this date, both capacities before and after,
the capped contributions, and the net deposit. -/
structure PayPeriod where
  date : Int
  year : Int
  reset : Bool
  capRetBefore : Dec
  retirement : Dec
  capRetAfter : Dec
  capSocBefore : Dec
  socsec : Dec
  capSocAfter : Dec
  deposit : Dec
deriving DecidableEq, Repr

/-- One iteration of the loop of `generate_employment_income`: reset the
capacities at the first pay date of a new calendar year (`retirement_limits`
lookup may fail, hence `Option`), cap the contributions, decrement the
capacities, and compute the deposit at precision 6. -/
def payStep (st : PayState) (d : Int) : Option (PayState × PayPeriod) :=
  let y := yearOfDay d
  let reset : Bool := match st.prevYear with
    | none => true
    | some py => py != y
  let capRet0? : Option Dec := if reset then retirementLimitsGet y else some st.capRet
  match capRet0? with
  | none => none
  | some capRet0 =>
    let capSoc0 : Dec := if reset then ⟨7000, 0⟩ else st.capSoc
    let retirement := Dec.min capRet0 retirement_uncappedD
    let capRet1 := Dec.subP 28 capRet0 retirement
    let socsec := Dec.min capSoc0 socsec_uncapped
    let capSoc1 := Dec.subP 28 capSoc0 socsec
    let dep := Dec.subP 6 (Dec.subP 6 (Dec.subP 6 gross retirement) fixed) socsec
    some ({ prevYear := some y, capRet := capRet1, capSoc := capSoc1 },
          { date := d, year := y, reset := reset,
            capRetBefore := capRet0, retirement := retirement, capRetAfter := capRet1,
            capSocBefore := capSoc0, socsec := socsec, capSocAfter := capSoc1,
            deposit := dep })

def payRun : PayState → List Int → Option (List PayPeriod)
  | _, [] => some []
  | st, d :: rest =>
    match payStep st d with
    | none => none
    | some (st', p) => (payRun st' rest).map (fun l => p :: l)

/-- The full run of the payroll engine over the generation range.  The
engine starts with `date_prev = None` and zero capacities (reset at the very
first date). -/
def payPeriodsOpt : Option (List PayPeriod) := payRun ⟨none, ⟨0, 0⟩, ⟨0, 0⟩⟩ payDates

def payPeriods : List PayPeriod := payPeriodsOpt.getD []

/-! ## The emitted payroll transaction's legs, per currency

From the template of `generate_employment_income`: each amount is embedded
through `'{:.2f}'` (the dental/medical/vision premiums are printed verbatim,
already at two decimals).  When `retirement == ZERO` the three lines
matching `\bretirement\b` (the CCY `Retirement` leg and both DEFCCY legs)
are removed; no other line is ever removed. -/

def payrollCcyAmounts (p : PayPeriod) : List Dec :=
  [fmt2 p.deposit]
  ++ (if p.retirement.m = 0 then [] else [fmt2 p.retirement])
  ++ [(fmt2 gross).neg, (fmt2 lifeinsurance).neg, fmt2 lifeinsurance,
      dental, medical, vision,
      fmt2 medicare, fmt2 federal, fmt2 state, fmt2 city, fmt2 sdi,
      fmt2 p.socsec]

def payrollDefccyAmounts (p : PayPeriod) : List Dec :=
  if p.retirement.m = 0 then [] else [(fmt2 p.retirement).neg, fmt2 p.retirement]

def payrollVacAmounts (_p : PayPeriod) : List Dec :=
  [fmt2 vacation_hrs, (fmt2 vacation_hrs).neg]

/-! ## The balance-tracked transfer engine

Embedding of `generate_outgoing_transfers`.  The realizer collaborator
supplies the monitored account's postings in chronological order; the
engine replays their principal-currency (`CCY`) amounts into a running
balance.  Each posting is a `(entry date, CCY amount)` pair (a Dec); the
inventory arithmetic is Python decimal arithmetic at the default context
precision 28.  A synthesized transfer is `(date, amount)`: the written
amount passes through `'{:.2f}'`, while the in-memory balance is reduced by
the unrounded `transfer_amount`. -/

def transfersRun (minB thr : Dec) : Dec → List (Int × Dec) → Dec × List (Int × Dec)
  | bal, [] => (bal, [])
  | bal, (d, a) :: rest =>
    let bal1 := Dec.addP 28 bal a
    if Dec.blt (Dec.addP 28 minB thr) bal1 then
      let t := Dec.subP 28 bal1 minB
      let r := transfersRun minB thr (Dec.addP 28 bal1 t.neg) rest
      (r.1, (d + 1, fmt2 t) :: r.2)
    else
      transfersRun minB thr bal1 rest

/-- Modelled from the spec: the threshold-transfer contract of the
Balance-Tracked Transfer Engine, at the level of exact integer cents.
Replaying the postings in order, after each posting whose application
leaves the balance strictly above `minimum + threshold`, a transfer of
`balance - minimum` dated one day after that posting is emitted and the
tracked balance is reduced to exactly `minimum` before the next posting is
evaluated.  Used as the specification side of the refinement theorem for
`transfersRun`. -/
def specTransfersRun (minC thrC : Int) : Int → List (Int × Int) → Int × List (Int × Int)
  | bal, [] => (bal, [])
  | bal, (d, a) :: rest =>
    let b := bal + a
    if minC + thrC < b then
      let r := specTransfersRun minC thrC minC rest
      (r.1, (d + 1, b - minC) :: r.2)
    else
      specTransfersRun minC thrC b rest

/-! ## Periodic expense transactions

Embedding of `generate_periodic_expenses`: one transaction per date of the
incoming date sequence; the payee/narration are either the fixed string or
a random draw (abstracted as chooser functions), the debited account's leg
is the text `-AMOUNT`, the credited account's the text `AMOUNT`, with
`AMOUNT = '{:.2f}'.format(txn_amount)` and `txn_amount` the value the
amount generator returned for that occurrence. -/

structure ExpenseTxn where
  date : Int
  payee : String
  narration : String
  amountFrom : Dec
  amountTo : Dec
deriving DecidableEq, Repr

def periodicGo (payee narration : Nat → String) (amountGen : Nat → Dec) :
    Nat → List Int → List ExpenseTxn
  | _, [] => []
  | i, d :: rest =>
    let a := fmt2 (amountGen i)
    { date := d, payee := payee i, narration := narration i,
      amountFrom := a.neg, amountTo := a }
      :: periodicGo payee narration amountGen (i+1) rest

def generate_periodic_expenses (dates : List Int)
    (payee narration : Nat → String) (amountGen : Nat → Dec) : List ExpenseTxn :=
  periodicGo payee narration amountGen 0 dates

/-! ## Cadence generators

Embeddings of `date_seq` and `delay_dates`.  Randomness is an injected
stream `rnd : Nat → Int`; `randint lo hi r` models `random.randint(lo, hi)`
drawing entropy `r`, including the `ValueError` (empty range) it raises
when `lo > hi`.  `date_seq`'s two `assert` statements come first, before
any date is produced; they and the error are modelled with `Except`. -/

def randint (lo hi r : Int) : Except String Int :=
  if hi < lo then Except.error "empty range for randrange"
  else Except.ok (lo + Int.emod r (hi - lo + 1))

def dateSeqGo (dateEnd daysMin daysMax : Int) (rnd : Nat → Int) :
    Nat → Nat → Int → Except String (List Int)
  | 0, _, _ => Except.error "out of fuel"
  | fuel+1, k, date =>
    if date < dateEnd then
      match randint daysMin daysMax (rnd k) with
      | Except.error e => Except.error e
      | Except.ok nb =>
        (dateSeqGo dateEnd daysMin daysMax rnd fuel (k+1) (date + nb)).map
          (fun l => (date + nb) :: l)
    else Except.ok []

def date_seq (dateBegin dateEnd daysMin daysMax : Int) (rnd : Nat → Int)
    (fuel : Nat) : Except String (List Int) :=
  if ¬ 0 < daysMin then Except.error "assertion failed: days_min > 0"
  else if ¬ daysMin ≤ daysMax then Except.error "assertion failed: days_min <= days_max"
  else dateSeqGo dateEnd daysMin daysMax rnd fuel 0 dateBegin

def delay_dates : List Int → Int → Int → (Nat → Int) → Nat → Except String (List Int)
  | [], _, _, _, _ => Except.ok []
  | d :: rest, lo, hi, rnd, k =>
    match randint lo hi (rnd k) with
    | Except.error e => Except.error e
    | Except.ok j => (delay_dates rest lo hi rnd (k+1)).map (fun l => (d + j) :: l)

/-! ## The final non-negativity check

Embedding of `check_non_negative` and `validate_output`.  The beancount
`Inventory` and the realizer are collaborators outside this repository's
files. -/

/-- Modelled from the spec: an Inventory is a mapping from currency to
accumulated number for one account, mutated only by explicit add-position
operations (`beancount.core.inventory` is not among this repository's
files).  Represented as an association list; adding accumulates into the
currency's entry, or appends a new one. -/
def addPosition (inv : List (String × ℚ)) (c : String) (n : ℚ) : List (String × ℚ) :=
  if inv.any (fun kv => kv.1 == c) then
    inv.map (fun kv => if kv.1 == c then (kv.1, kv.2 + n) else kv)
  else inv ++ [(c, n)]

/-- `balance.get_amounts()`: the accumulated number of every currency
present in the inventory. -/
def getAmounts (inv : List (String × ℚ)) : List ℚ := inv.map (fun kv => kv.2)

/-- The loop body of `check_non_negative`: after adding each posting of the
monitored account, assert that every accumulated amount is strictly
positive.  `false` models the `AssertionError`. -/
def checkNonNegativeGo (inv : List (String × ℚ)) : List (String × ℚ) → Bool
  | [] => true
  | p :: rest =>
    let inv' := addPosition inv p.1 p.2
    (getAmounts inv').all (fun v => decide (0 < v)) && checkNonNegativeGo inv' rest

/-- `check_non_negative(entries, account)`, with the realizer already
applied: `ps` is the ordered list of the monitored account's postings as
`(currency, number)` pairs. -/
def check_non_negative (ps : List (String × ℚ)) : Bool := checkNonNegativeGo [] ps

/-- The inventory accumulated from the first `k+1` postings. -/
def invAfter (ps : List (String × ℚ)) (k : Nat) : List (String × ℚ) :=
  (ps.take (k+1)).foldl (fun inv p => addPosition inv p.1 p.2) []

/-- The sanity-check loop of `validate_output`: replays
`check_non_negative` for every monitored account of `positive_accounts`
(each given by its ordered posting list). -/
def validate_output (accountPostings : List (List (String × ℚ))) : Bool :=
  accountPostings.all check_non_negative

/-! ## Template substitution

Embedding of `replace` (and the `textwrap.dedent` it applies first).
Strings are lists of characters.  A replacement is a `(pattern, value)`
pair; the source applies `re.sub(r'\b{}\b'.format(pattern), value, output)`
for each pair of the dict, in order: whole-word occurrences of the pattern
are substituted, and nothing else happens — in particular a placeholder
for which no replacement is supplied is simply left in the output. -/

abbrev Str := List Char

def isWSChar (c : Char) : Bool := c == ' ' || c == '\t'

def splitLines : Str → List Str
  | [] => [[]]
  | c :: rest =>
    match splitLines rest with
    | [] => [[]]
    | l :: ls => if c = '\n' then [] :: l :: ls else (c :: l) :: ls

def joinLines : List Str → Str
  | [] => []
  | [l] => l
  | l :: ls => l ++ '\n' :: joinLines ls

/-- A line consisting only of whitespace (normalized away by `dedent`
before the margin is computed). -/
def isBlankLine (l : Str) : Bool := l.all isWSChar

def leadingWS : Str → Str
  | [] => []
  | c :: rest => if isWSChar c then c :: leadingWS rest else []

def commonPrefix : Str → Str → Str
  | a :: as, b :: bs => if a = b then a :: commonPrefix as bs else []
  | _, _ => []

/-- The margin of `textwrap.dedent`: the longest common leading-whitespace
prefix of the lines that contain non-whitespace. -/
def dedentMargin (lines : List Str) : Option Str :=
  lines.foldl (fun acc l =>
    if isBlankLine l then acc
    else match acc with
      | none => some (leadingWS l)
      | some p => some (commonPrefix p (leadingWS l))) none

/-- `textwrap.dedent`: whitespace-only lines are emptied, then the common
margin is removed from the start of every line. -/
def dedent (s : Str) : Str :=
  let lines := (splitLines s).map (fun l => if isBlankLine l then [] else l)
  let marg := (dedentMargin lines).getD []
  joinLines (lines.map (fun l => if marg.isPrefixOf l then l.drop marg.length else l))

def isWordChar (c : Char) : Bool := c.isAlphanum || c == '_'

def isWordOpt : Option Char → Bool
  | none => false
  | some c => isWordChar c

/-- One `re.sub(r'\b…\b', value, s)` pass: substitute every non-overlapping
whole-word occurrence of `pat`, left to right (`prev` is the character just
before the scan position, for the left word boundary). -/
def subWordGo (pat rep : Str) : Nat → Option Char → Str → Str
  | 0, _, s => s
  | fuel+1, prev, s =>
    match s with
    | [] => []
    | c :: rest =>
      if pat.isPrefixOf s
          && (isWordOpt prev != isWordOpt (some c))
          && (isWordOpt pat.getLast? != isWordOpt (s.drop pat.length).head?) then
        rep ++ subWordGo pat rep fuel pat.getLast? (s.drop pat.length)
      else c :: subWordGo pat rep fuel (some c) rest

def subWord (pat rep s : Str) : Str :=
  if pat.isEmpty then s else subWordGo pat rep s.length none s

/-- `strip()`: remove leading and trailing whitespace. -/
def stripStr (s : Str) : Str :=
  ((s.dropWhile (fun c => c.isWhitespace)).reverse.dropWhile
    (fun c => c.isWhitespace)).reverse

/-- `replace(string, replacements, strip)`: dedent, optionally strip, then
apply each word-boundaried substitution of the dict in order.  The
function is total: it has no failure path, whatever placeholders the
template contains and whatever the dict supplies. -/
def replace (s : Str) (repls : List (Str × Str)) (strip : Bool) : Str :=
  let out := dedent s
  let out := if strip then stripStr out else out
  repls.foldl (fun acc pr => subWord pr.1 pr.2 acc) out
/-! ## Exactness of the precision-28 context on small operands -/

theorem numDigitsAux_le : ∀ (fuel k n : Nat), k ≤ fuel → 0 < k → n < 10 ^ k →
    numDigitsAux fuel n ≤ k := by
  intro fuel
  induction fuel with
  | zero => intro k n hk h0 _; omega
  | succ f ih =>
    intro k n hk h0 hn
    rw [numDigitsAux]
    split
    · omega
    · rename_i h10
      have hk2 : 2 ≤ k := by
        by_contra hlt
        have hk1 : k = 1 := by omega
        rw [hk1, pow_one] at hn
        exact h10 hn
      have hdiv : n / 10 < 10 ^ (k - 1) := by
        have : n < 10 ^ (k - 1) * 10 := by
          have : 10 ^ (k - 1) * 10 = 10 ^ k := by
            rw [← pow_succ]
            congr 1
            omega
          omega
        omega
      have := ih (k - 1) (n / 10) (by omega) (by omega) hdiv
      omega

theorem numDigits_le_28 (n : Nat) (h : n < 10 ^ 28) : numDigits n ≤ 28 :=
  numDigitsAux_le 64 28 n (by norm_num) (by norm_num) h

theorem limitPrec_eq_self (p : Nat) (x : Dec) (h : numDigits x.m.natAbs ≤ p) :
    x.limitPrec p = x := by
  rw [Dec.limitPrec, if_pos h]

theorem addExact_cents (x y : Int) :
    Dec.addExact ⟨x, -2⟩ ⟨y, -2⟩ = ⟨x + y, -2⟩ := by
  simp [Dec.addExact]

theorem addP_cents (x y : Int) (h : (x + y).natAbs < 10 ^ 28) :
    Dec.addP 28 ⟨x, -2⟩ ⟨y, -2⟩ = ⟨x + y, -2⟩ := by
  rw [Dec.addP, addExact_cents]
  exact limitPrec_eq_self 28 _ (numDigits_le_28 _ h)

theorem subP_cents (x y : Int) (h : (x - y).natAbs < 10 ^ 28) :
    Dec.subP 28 ⟨x, -2⟩ ⟨y, -2⟩ = ⟨x - y, -2⟩ := by
  rw [Dec.subP, Dec.subExact, Dec.neg]
  have : Dec.addExact ⟨x, -2⟩ ⟨-y, -2⟩ = ⟨x - y, -2⟩ := by
    rw [addExact_cents]
    rw [Int.sub_eq_add_neg]
  rw [this]
  exact limitPrec_eq_self 28 _ (numDigits_le_28 _ h)

theorem blt_cents (x y : Int) : Dec.blt ⟨x, -2⟩ ⟨y, -2⟩ = decide (x < y) := by
  simp [Dec.blt]

theorem fmt2_cents (x : Int) : fmt2 ⟨x, -2⟩ = ⟨x, -2⟩ := by
  simp [fmt2, Dec.roundExp]

/-- Total absolute size (in cents) of a posting list. -/
def centsAbsSum (ps : List (Int × Int)) : Nat := (ps.map (fun p => p.2.natAbs)).sum

theorem transfersRun_spec_aux (mc tc : Int) :
    ∀ (ps : List (Int × Int)) (c : Int) (B : Nat),
      c.natAbs + centsAbsSum ps ≤ B →
      mc.natAbs + tc.natAbs + centsAbsSum ps ≤ B →
      3 * B < 10 ^ 28 →
      transfersRun ⟨mc, -2⟩ ⟨tc, -2⟩ ⟨c, -2⟩ (ps.map (fun p => (p.1, (⟨p.2, -2⟩ : Dec)))) =
        ((⟨(specTransfersRun mc tc c ps).1, -2⟩ : Dec),
         (specTransfersRun mc tc c ps).2.map (fun q => (q.1, (⟨q.2, -2⟩ : Dec)))) := by
  intro ps
  induction ps with
  | nil =>
    intro c B h1 h2 h3
    simp [transfersRun, specTransfersRun]
  | cons p rest ih =>
    intro c B h1 h2 h3
    obtain ⟨d, a⟩ := p
    have hsum : centsAbsSum ((d, a) :: rest) = a.natAbs + centsAbsSum rest := by
      simp [centsAbsSum]
    rw [hsum] at h1 h2
    have hca : (c + a).natAbs ≤ c.natAbs + a.natAbs := Int.natAbs_add_le c a
    have hmt : (mc + tc).natAbs ≤ mc.natAbs + tc.natAbs := Int.natAbs_add_le mc tc
    have hsub : (c + a - mc).natAbs ≤ (c + a).natAbs + mc.natAbs := Int.natAbs_sub_le _ _
    simp only [List.map_cons, transfersRun, specTransfersRun]
    rw [addP_cents c a (by omega), addP_cents mc tc (by omega), blt_cents]
    by_cases hcond : mc + tc < c + a
    · rw [if_pos (decide_eq_true hcond), if_pos hcond]
      rw [subP_cents (c + a) mc (by omega)]
      have hneg : (⟨c + a - mc, -2⟩ : Dec).neg = ⟨-(c + a - mc), -2⟩ := rfl
      rw [hneg, addP_cents (c + a) (-(c + a - mc)) (by omega)]
      have hmc : c + a + -(c + a - mc) = mc := by omega
      rw [hmc, fmt2_cents]
      rw [ih mc B (by omega) (by omega) h3]
      simp
    · rw [if_neg (by simpa using hcond), if_neg hcond]
      exact ih (c + a) B (by omega) (by omega) h3

/-- Yearly cumulative retirement contribution attributed to calendar year
`y` by the engine run. -/
def yearlyRetirement (y : Int) : Dec :=
  sumDec ((payPeriods.filter (fun p => p.year == y)).map (fun p => p.retirement))

/-- Yearly cumulative social-security-equivalent contribution attributed to
calendar year `y` by the engine run. -/
def yearlySocsec (y : Int) : Dec :=
  sumDec ((payPeriods.filter (fun p => p.year == y)).map (fun p => p.socsec))

theorem fmt2_exp (x : Dec) : (fmt2 x).e = -2 := by
  rw [fmt2, Dec.roundExp]
  split <;> rfl

/-- A two-leg transaction whose legs are the formatted amount and its
negation sums to zero in its single currency. -/
theorem sumDec_twoLeg (x : Dec) : (sumDec [(fmt2 x).neg, fmt2 x]).m = 0 := by
  have he : fmt2 x = ⟨(fmt2 x).m, -2⟩ := by
    have h := fmt2_exp x
    cases hfx : fmt2 x with
    | mk m e => rw [hfx] at h; simp at h; rw [h]
  rw [he]
  simp [sumDec, Dec.neg, Dec.addExact]

theorem periodicGo_eq (payee narr : Nat → String) (gen : Nat → Dec) :
    ∀ (dates : List Int) (i : Nat),
      periodicGo payee narr gen i dates =
        (List.range dates.length).map (fun j =>
          { date := dates.getD j 0, payee := payee (i + j), narration := narr (i + j),
            amountFrom := (fmt2 (gen (i + j))).neg, amountTo := fmt2 (gen (i + j)) }) := by
  intro dates
  induction dates with
  | nil => intro i; simp [periodicGo]
  | cons d rest ih =>
    intro i
    rw [periodicGo, List.length_cons, List.range_succ_eq_map, List.map_cons, List.map_map]
    have hadd : ∀ j, i + 1 + j = i + Nat.succ j := by omega
    simp [ih (i + 1), List.map_map, hadd, Function.comp]

/-- C7: `generate_periodic_expenses` emits exactly one two-leg transaction
per date of the incoming sequence: the debited account's leg is the
negation of the rounded (2 fractional digits, half-even) generated amount,
the credited account's leg the rounded amount itself, and every emitted
transaction sums to zero in its single currency — the amount is taken
as-is (in particular when it is ≤ 0: the equations hold for every value
the generator returns, with no clamping anywhere). -/
theorem c7_periodic_expenses_balanced (dates : List Int)
    (payee narr : Nat → String) (gen : Nat → Dec) :
    generate_periodic_expenses dates payee narr gen =
      (List.range dates.length).map (fun j =>
        { date := dates.getD j 0, payee := payee j, narration := narr j,
          amountFrom := (fmt2 (gen j)).neg, amountTo := fmt2 (gen j) })
    ∧ (generate_periodic_expenses dates payee narr gen).length = dates.length
    ∧ ∀ t ∈ generate_periodic_expenses dates payee narr gen,
        (sumDec [t.amountFrom, t.amountTo]).m = 0 := by
  have hmain : generate_periodic_expenses dates payee narr gen =
      (List.range dates.length).map (fun j =>
        { date := dates.getD j 0, payee := payee j, narration := narr j,
          amountFrom := (fmt2 (gen j)).neg, amountTo := fmt2 (gen j) }) := by
    rw [generate_periodic_expenses, periodicGo_eq]
    simp
  refine ⟨hmain, by rw [hmain]; simp, ?_⟩
  intro t ht
  rw [hmain] at ht
  obtain ⟨j, _, rfl⟩ := List.mem_map.mp ht
  exact sumDec_twoLeg (gen j)

/-- C1: refinement of the balance-tracked transfer engine.  For any
monitored-account posting list (dates with CCY amounts in cents), minimum
and threshold, the engine's replay (`transfersRun`, Python decimal
arithmetic at context precision 28, written amounts through `'{:.2f}'`)
coincides with the spec-level contract `specTransfersRun`: after each
posting whose application leaves the balance strictly above
minimum + threshold, a transfer of (balance − minimum) dated one day after
that posting is emitted, and the tracked balance is reduced to exactly the
minimum before the next posting is evaluated.  The size bound keeps every
intermediate inventory value within 28 significant digits, where the
decimal context is exact. -/
theorem c1_outgoing_transfers_refine (minCents thrCents balCents : Int)
    (ps : List (Int × Int))
    (hbound : 3 * (balCents.natAbs + minCents.natAbs + thrCents.natAbs + centsAbsSum ps)
        < 10 ^ 28) :
    transfersRun ⟨minCents, -2⟩ ⟨thrCents, -2⟩ ⟨balCents, -2⟩
        (ps.map (fun p => (p.1, (⟨p.2, -2⟩ : Dec)))) =
      ((⟨(specTransfersRun minCents thrCents balCents ps).1, -2⟩ : Dec),
       (specTransfersRun minCents thrCents balCents ps).2.map
         (fun q => (q.1, (⟨q.2, -2⟩ : Dec)))) :=
  transfersRun_spec_aux minCents thrCents ps balCents
    (balCents.natAbs + minCents.natAbs + thrCents.natAbs + centsAbsSum ps)
    (by omega) (by omega) hbound

/-- Witness for C1, at the spec's own scenario: minimum 2774.00, threshold
4000.00, a deposit bringing the balance to 6800.00 — a transfer of 4026.00
is synthesized dated one day later and the balance is left at exactly
2774.00. -/
theorem c1_outgoing_transfers_refine_witness :
    transfersRun ⟨277400, -2⟩ ⟨400000, -2⟩ ⟨0, -2⟩
        ([((15000 : Int), (680000 : Int))].map (fun p => (p.1, (⟨p.2, -2⟩ : Dec)))) =
      ((⟨(specTransfersRun 277400 400000 0 [(15000, 680000)]).1, -2⟩ : Dec),
       (specTransfersRun 277400 400000 0 [(15000, 680000)]).2.map
         (fun q => (q.1, (⟨q.2, -2⟩ : Dec)))) :=
  c1_outgoing_transfers_refine 277400 400000 0 [(15000, 680000)] (by decide)

set_option maxRecDepth 40000

/-- C2: over the full engine run (105 bi-weekly pay dates from 2012-01-05
to 2015-12-31), each period's retirement contribution is
`min(remaining capacity, ceil((gross * 0.25) / 100) * 100)` (with
`gross = annual_salary / 26`, the formula embedded in
`retirement_uncappedD`), the capacity is decremented by exactly that
contribution, the remaining capacity is never negative, and the cumulative
retirement contribution of each calendar year never exceeds that year's
statutory limit. -/
theorem c2_retirement_contributions_capped :
    payPeriods.length = 105
    ∧ (∀ p ∈ payPeriods,
        p.retirement = Dec.min p.capRetBefore retirement_uncappedD
        ∧ p.capRetAfter = Dec.subP 28 p.capRetBefore p.retirement
        ∧ 0 ≤ p.capRetAfter.m)
    ∧ (∀ y ∈ [(2012 : Int), 2013, 2014, 2015],
        Dec.blt ((retirementLimitsGet y).getD ⟨0, 0⟩) (yearlyRetirement y) = false) := by
  refine ⟨by decide, by decide, by decide⟩

/-- C3: every transaction the generator emits balances exactly.  For each
of the 105 payroll transactions the CCY legs (net deposit at precision 6,
retirement when present, gross salary, group-term-life pair, fixed
premiums, taxes, capped social security) sum to exactly zero, as do the
DEFCCY legs and the VACCCY legs; and every two-leg transaction built from
a formatted amount and its negation (the periodic expenses and the
synthesized transfers) sums to zero for every generated amount. -/
theorem c3_transactions_balance :
    payPeriods.length = 105
    ∧ (∀ p ∈ payPeriods,
        (sumDec (payrollCcyAmounts p)).m = 0
        ∧ (sumDec (payrollDefccyAmounts p)).m = 0
        ∧ (sumDec (payrollVacAmounts p)).m = 0)
    ∧ (∀ a : Dec, (sumDec [(fmt2 a).neg, fmt2 a]).m = 0) :=
  ⟨by decide, by decide, sumDec_twoLeg⟩

/-- C4: the year-boundary reset takes the new capacity from the
`retirement_limits` table (shown on the actual run for 2012..2015), but the
table is read by plain dict indexing: for a year absent from the table the
lookup yields nothing (a `KeyError`), even though the default entry
`None: 18500` is present in the dict — that entry is unreachable through
`retirement_limits[date.year]`. -/
theorem c4_limit_lookup_keyerror :
    retirementLimitsGet 2017 = none
    ∧ ((none, (⟨18500, 0⟩ : Dec)) ∈ retirement_limits)
    ∧ retirementLimitsGet 2012 = some ⟨17000, 0⟩
    ∧ retirementLimitsGet 2013 = some ⟨17500, 0⟩
    ∧ retirementLimitsGet 2014 = some ⟨17500, 0⟩
    ∧ retirementLimitsGet 2015 = some ⟨18000, 0⟩
    ∧ (∀ p ∈ payPeriods, p.reset = true →
        some p.capRetBefore = retirementLimitsGet p.year) := by
  refine ⟨by decide, by decide, by decide, by decide, by decide, by decide, by decide⟩

/-- C5 counterexample: the social-security capacity of 2012 reaches zero at
the 25th pay period (index 24), yet the 26th pay period of the same year
(index 25) still carries the SocSec contribution leg, present with amount
0.00 (it is the last CCY leg of the transaction).  Only the retirement
lines are ever removed from the template. -/
theorem c5_socsec_zero_leg_counterexample :
    ((payPeriods.get? 24).map (fun p => (p.year, p.capSocAfter.m))) = some (2012, 0)
    ∧ ((payPeriods.get? 25).map (fun p =>
        (p.year, p.socsec.m, decide (fmt2 p.socsec ∈ payrollCcyAmounts p),
         (payrollCcyAmounts p).getLast?)))
      = some (2012, 0, true, some ⟨0, -2⟩) := by
  refine ⟨by decide, by decide⟩

/-- C5 (amended): once the yearly retirement capacity reaches zero the
three retirement lines are entirely absent from the rest of that year's
payroll transactions (the CCY leg list shrinks to 13 and the DEFCCY legs
vanish; this actually occurs, in 45 of the 105 periods), while the
social-security leg remains present in every payroll transaction — with
amount 0.00 once its capacity is exhausted. -/
theorem c5_retirement_legs_absent_amended :
    payPeriods.length = 105
    ∧ (payPeriods.filter (fun p => p.retirement.m == 0)).length = 45
    ∧ (∀ p ∈ payPeriods,
        (p.retirement.m = 0 →
          (payrollCcyAmounts p).length = 13 ∧ payrollDefccyAmounts p = [])
        ∧ (p.retirement.m ≠ 0 →
          (payrollCcyAmounts p).length = 14 ∧ (payrollDefccyAmounts p).length = 2)
        ∧ fmt2 p.socsec ∈ payrollCcyAmounts p) := by
  refine ⟨by decide, by decide, by decide⟩

/-- C10: the social-security-equivalent capacity is reset to the constant
7000 at the first pay date of every calendar year (all four resets of the
run, independent of the year — the `retirement_limits` table is not
consulted), each period's contribution is
`min(remaining capacity, gross * 0.0610)`, the capacity is decremented by
exactly that contribution and is never negative, and the cumulative
social-security contribution of each calendar year never exceeds 7000. -/
theorem c10_socsec_capped :
    payPeriods.length = 105
    ∧ (payPeriods.filter (fun p => p.reset)).length = 4
    ∧ (∀ p ∈ payPeriods,
        (p.reset = true → p.capSocBefore = ⟨7000, 0⟩)
        ∧ p.socsec = Dec.min p.capSocBefore socsec_uncapped
        ∧ p.capSocAfter = Dec.subP 28 p.capSocBefore p.socsec
        ∧ 0 ≤ p.capSocAfter.m)
    ∧ (∀ y ∈ [(2012 : Int), 2013, 2014, 2015],
        Dec.blt ⟨7000, 0⟩ (yearlySocsec y) = false) := by
  refine ⟨by decide, by decide, by decide, by decide⟩

theorem checkGo_iff : ∀ (ps : List (String × ℚ)) (inv : List (String × ℚ)),
    checkNonNegativeGo inv ps = true ↔
      ∀ k < ps.length,
        ∀ v ∈ getAmounts ((ps.take (k+1)).foldl
            (fun i q => addPosition i q.1 q.2) inv), 0 < v := by
  intro ps
  induction ps with
  | nil => intro inv; simp [checkNonNegativeGo]
  | cons p rest ih =>
    intro inv
    rw [checkNonNegativeGo, Bool.and_eq_true, List.all_eq_true]
    simp only [decide_eq_true_eq]
    constructor
    · rintro ⟨hall, hrest⟩ k hk v hv
      cases k with
      | zero =>
        rw [List.take_succ_cons, List.take_zero, List.foldl_cons, List.foldl_nil] at hv
        exact hall v hv
      | succ j =>
        rw [List.take_succ_cons, List.foldl_cons] at hv
        refine (ih _).mp hrest j ?_ v hv
        simpa using hk
    · intro h
      constructor
      · intro v hv
        have h0 := h 0 (by simp)
        rw [List.take_succ_cons, List.take_zero, List.foldl_cons, List.foldl_nil] at h0
        exact h0 v hv
      · rw [ih]
        intro j hj v hv
        have hj' := h (j + 1) (by simp; omega)
        rw [List.take_succ_cons, List.foldl_cons] at hj'
        exact hj' v hv

/-- C6: the final validation replay fails exactly on a non-positive running
balance.  `check_non_negative` succeeds (no `AssertionError`) iff after
every posting affecting the monitored account, every currency accumulated
so far in its inventory has a strictly positive balance — equivalently it
fails iff at some point of the replay some running balance is ≤ 0.  And
`validate_output` succeeds iff that holds for every monitored account. -/
theorem c6_validation_nonneg_iff :
    (∀ ps : List (String × ℚ), check_non_negative ps = true ↔
        ∀ k < ps.length, ∀ v ∈ getAmounts (invAfter ps k), 0 < v)
    ∧ (∀ accountPostings : List (List (String × ℚ)),
        validate_output accountPostings = true ↔
          ∀ ps ∈ accountPostings, check_non_negative ps = true) :=
  ⟨fun ps => checkGo_iff ps [], fun _ => List.all_eq_true⟩

/-- C8 counterexample: the delay transform called with minimum 5 above
maximum 2 on an empty upstream sequence does not fail at all — it returns
successfully, so "a call whose minimum bound exceeds its maximum bound
fails with an invalid-range error" is false for `delay_dates`. -/
theorem c8_delay_empty_counterexample :
    delay_dates [] 5 2 (fun _ => 0) 0 = Except.ok [] := rfl

/-- C8 (amended): `date_seq` with `days_min > days_max` always fails with a
precondition assertion before yielding any date; `delay_dates` with
`delay_min > delay_max` fails with the empty-range error of the random
draw before yielding any date whenever the upstream sequence is nonempty —
but with an empty upstream it completes without error, yielding no dates. -/
theorem c8_invalid_range_amended :
    (∀ (b e mn mx : Int) (rnd : Nat → Int) (fuel : Nat), mx < mn →
        ∃ msg, date_seq b e mn mx rnd fuel = Except.error msg)
    ∧ (∀ (ds : List Int) (lo hi : Int) (rnd : Nat → Int) (k : Nat),
        hi < lo → ds ≠ [] →
        delay_dates ds lo hi rnd k = Except.error "empty range for randrange") := by
  constructor
  · intro b e mn mx rnd fuel h
    by_cases h0 : 0 < mn
    · exact ⟨_, by rw [date_seq, if_neg (by omega), if_pos (by omega)]⟩
    · exact ⟨_, by rw [date_seq, if_pos (by omega)]⟩
  · intro ds lo hi rnd k h hne
    cases ds with
    | nil => exact absurd rfl hne
    | cons d rest => simp [delay_dates, randint, if_pos h]

/-- Witness for C8's amended theorem: `date_seq` over 2012 with step range
[5, 2] fails with its precondition assertion, and `delay_dates` on one date
with delay range [5, 2] fails with the empty-range error. -/
theorem c8_invalid_range_witness :
    (∃ msg, date_seq 15340 15706 5 2 (fun _ => 0) 30 = Except.error msg)
    ∧ delay_dates [15340] 5 2 (fun _ => 0) 0
        = Except.error "empty range for randrange" :=
  ⟨c8_invalid_range_amended.1 15340 15706 5 2 (fun _ => 0) 30 (by decide),
   c8_invalid_range_amended.2 [15340] 5 2 (fun _ => 0) 0 (by decide) (by decide)⟩

theorem subWordGo_of_not_infix (pat rep : Str) :
    ∀ (fuel : Nat) (prev : Option Char) (s : Str), ¬ pat <:+: s →
      subWordGo pat rep fuel prev s = s := by
  intro fuel
  induction fuel with
  | zero => intro prev s _; rfl
  | succ f ih =>
    intro prev s h
    cases s with
    | nil => rfl
    | cons c rest =>
      have hnp : pat.isPrefixOf (c :: rest) = false := by
        cases hp : pat.isPrefixOf (c :: rest)
        · rfl
        · exact absurd ((List.isPrefixOf_iff_prefix.mp hp).isInfix) h
      simp only [subWordGo, hnp, Bool.false_and, if_neg (by simp : ¬ false = true)]
      rw [ih (some c) rest (fun hinf => h (List.infix_cons hinf))]

theorem subWord_of_not_infix (pat rep s : Str) (h : ¬ pat <:+: s) :
    subWord pat rep s = s := by
  rw [subWord]
  split
  · rfl
  · exact subWordGo_of_not_infix pat rep s.length none s h

/-- C9 counterexample: applying `replace` to a template containing the
placeholder `YYYY-MM-DD` with no replacement supplied for it does not fail
— it produces output, the template itself with the placeholder left
verbatim. -/
theorem c9_replace_missing_counterexample :
    replace "YYYY-MM-DD open Assets:CC:Bank1:Checking CCY".data [] false
      = "YYYY-MM-DD open Assets:CC:Bank1:Checking CCY".data
    ∧ List.isPrefixOf "YYYY-MM-DD".data
        (replace "YYYY-MM-DD open Assets:CC:Bank1:Checking CCY".data [] false) = true := by
  refine ⟨by decide, by decide⟩

/-- C9 (amended): template substitution is total — `replace` has no failure
path.  It applies exactly the supplied word-boundaried substitutions to the
dedented template; when no supplied pattern occurs in the dedented
template, the output is the dedented template unchanged, so a placeholder
with no supplied replacement is left verbatim in the produced output
rather than raising any error. -/
theorem c9_replace_leaves_placeholders_amended (s : Str) (repls : List (Str × Str))
    (h : ∀ pr ∈ repls, ¬ pr.1 <:+: dedent s) :
    replace s repls false = dedent s := by
  have haux : ∀ l : List (Str × Str), (∀ pr ∈ l, ¬ pr.1 <:+: dedent s) →
      l.foldl (fun acc pr => subWord pr.1 pr.2 acc) (dedent s) = dedent s := by
    intro l
    induction l with
    | nil => intro _; rfl
    | cons pr rest ih =>
      intro hl
      rw [List.foldl_cons, subWord_of_not_infix pr.1 pr.2 (dedent s)
            (hl pr (List.mem_cons_self pr rest))]
      exact ih (fun q hq => hl q (List.mem_cons_of_mem _ hq))
  simpa [replace] using haux repls h

/-- Witness for C9's amended theorem: substituting the employer name into a
one-line template that mentions only the date placeholder leaves the
template untouched, placeholder included. -/
theorem c9_replace_leaves_placeholders_witness :
    replace "YYYY-MM-DD event employer".data [("Employer".data, "Hooli".data)] false
      = dedent "YYYY-MM-DD event employer".data :=
  c9_replace_leaves_placeholders_amended "YYYY-MM-DD event employer".data
    [("Employer".data, "Hooli".data)] (by decide)
